import Mathlib

/-!
Verification development for the CNN time-series forecaster in
src/src/prediction/predictor_model.py.

Modelling conventions:
* numpy / torch float tensors are idealised over the reals;
* a 3-D array of shape (N, T, D) is a structure carrying its three
  dimensions and a total entry function (indices out of range are never
  read by the theorems);
* every Python error raised by the core (ValueError for shape problems,
  the numpy concatenate failure, ZeroDivisionError, UnboundLocalError,
  torch runtime shape errors) is a constructor of the inductive Err, and
  fallible operations return Except Err.
-/

/-- Which array-dimension disagreement a ShapeMismatch reports: feature
count, sequence length on axis 1, or the fully-connected input size. -/
inductive ShapeKind
  | featDim
  | seqLen
  | fcIn
deriving DecidableEq, Repr

/-- Error taxonomy of the forecaster core. The constructors carry the
numbers reported in the corresponding Python error messages. -/
inductive Err
  | shapeMismatch (kind : ShapeKind) (expected actual : ℕ)
  | insufficientHistory (required actual : ℕ)
  | unrecognizedActivation (name : String)
  | emptyConcat
  | zeroDivision
  | typeError
  | unboundLocal
deriving DecidableEq, Repr

/-- A 3-D numeric array of shape (N, T, D): axes (instance, time, feature). -/
structure Arr3 where
  N : ℕ
  T : ℕ
  D : ℕ
  entry : ℕ → ℕ → ℕ → ℝ

/-- A 2-D numeric array of shape (N, T): axes (instance, time). -/
structure Arr2 where
  N : ℕ
  T : ℕ
  entry : ℕ → ℕ → ℝ

/-- Length of the Python slice x[-k:] applied to an axis of length L:
for k = 0 the slice -0: degenerates to 0:, i.e. the whole axis;
otherwise it keeps min k L trailing positions. -/
def pyNegSliceLen (k L : ℕ) : ℕ :=
  if k = 0 then L else min k L

/-- F.relu: x maps to max(0, x). -/
noncomputable def Frelu (x : ℝ) : ℝ := max 0 x

/-- get_activation: resolves an activation name to a callable, raising
ValueError (Unrecognized activation type) for names outside
relu / tanh / none. -/
noncomputable def get_activation (s : String) : Except Err (ℝ → ℝ) :=
  if s = "tanh" then .ok Real.tanh
  else if s = "relu" then .ok Frelu
  else if s = "none" then .ok (fun x => x)
  else .error (.unrecognizedActivation s)

/-- The Net module configuration: feat_dim, encode_len, decode_len and the
resolved activation callable, as stored by Net.__init__. -/
structure Net where
  feat_dim : ℕ
  encode_len : ℕ
  decode_len : ℕ
  activation : ℝ → ℝ

/-- Net.__init__: resolves the activation (which may raise) and records the
configuration. No relationship between encode_len and decode_len is
checked here. -/
noncomputable def Net.init (feat_dim encode_len decode_len : ℕ) (activation : String) :
    Except Err Net :=
  (get_activation activation).map fun f => ⟨feat_dim, encode_len, decode_len, f⟩

/-- Weights of one Conv1d layer: w (out_channel, in_channel, kernel pos)
and bias b (out_channel). -/
structure ConvW where
  w : ℕ → ℕ → ℕ → ℝ
  b : ℕ → ℝ

/-- Weights of one Linear layer: w (out_feature, in_feature) and bias b. -/
structure LinW where
  w : ℕ → ℕ → ℝ
  b : ℕ → ℝ

/-- The learned state of the Net: three convolutions and the head. -/
structure NetState where
  conv1 : ConvW
  conv2 : ConvW
  conv3 : ConvW
  fc : LinW

/-- The all-zero network state. -/
def zeroState : NetState :=
  ⟨⟨fun _ _ _ => 0, fun _ => 0⟩, ⟨fun _ _ _ => 0, fun _ => 0⟩,
   ⟨fun _ _ _ => 0, fun _ => 0⟩, ⟨fun _ _ => 0, fun _ => 0⟩⟩

/-- Conv1d with stride 1 and padding "same" on a (channel, time) map of
time length T: torch pads (k-1)/2 zeros on the left and the rest on the
right, so output position t reads input positions t + j - (k-1)/2 for
j < k, with zeros outside [0, T). -/
noncomputable def conv1dSame (inCh k T : ℕ) (cw : ConvW) (x : ℕ → ℕ → ℝ) :
    ℕ → ℕ → ℝ :=
  fun o t => cw.b o + ∑ c ∈ Finset.range inCh, ∑ j ∈ Finset.range k,
    cw.w o c j *
      (if (k - 1) / 2 ≤ t + j ∧ t + j < (k - 1) / 2 + T
        then x c (t + j - (k - 1) / 2) else 0)

/-- The three stacked convolutions of Net.forward, after the initial
permute to channel-first layout: feat_dim -> 100 -> 50 -> 25 channels with
kernel widths 4, 8, 16, each length-preserving. -/
noncomputable def Net.convStack (net : Net) (st : NetState) (Tlen : ℕ)
    (inst : ℕ → ℕ → ℝ) : ℕ → ℕ → ℝ :=
  conv1dSame 50 16 Tlen st.conv3
    (conv1dSame 100 8 Tlen st.conv2
      (conv1dSame net.feat_dim 4 Tlen st.conv1 (fun c t => inst t c)))

/-- After permuting back to time-major layout, Net.forward keeps the slice
x[:, -decode_len:, :] and flattens it row-major; flat index jj addresses
time jj / 25 of the slice and channel jj % 25. -/
noncomputable def Net.flatSlice (net : Net) (st : NetState) (Tlen : ℕ)
    (inst : ℕ → ℕ → ℝ) (jj : ℕ) : ℝ :=
  net.convStack st Tlen inst (jj % 25)
    (Tlen - pyNegSliceLen net.decode_len Tlen + jj / 25)

/-- Net.forward on a single instance (time, feature) of time length Tlen:
conv stack, truncation to the decode window, flatten, activation, and the
Linear head from 25 * decode_len inputs to decode_len outputs. -/
noncomputable def Net.forwardInst (net : Net) (st : NetState) (Tlen : ℕ)
    (inst : ℕ → ℕ → ℝ) (j : ℕ) : ℝ :=
  st.fc.b j + ∑ i ∈ Finset.range (25 * net.decode_len),
    st.fc.w j i * net.activation (net.flatSlice st Tlen inst i)

/-- The torch runtime shape checks a call of Net.forward performs on an
input of time length Tlen and feature count D: conv1 requires D channels
equal to feat_dim, and the Linear head requires the flattened slice size
25 * pyNegSliceLen decode_len Tlen to equal its 25 * decode_len input
size. Returns the first error raised, if any. -/
def Net.forwardCheck (net : Net) (Tlen D : ℕ) : Option Err :=
  if D ≠ net.feat_dim then
    some (.shapeMismatch .featDim net.feat_dim D)
  else if 25 * pyNegSliceLen net.decode_len Tlen ≠ 25 * net.decode_len then
    some (.shapeMismatch .fcIn (25 * net.decode_len)
      (25 * pyNegSliceLen net.decode_len Tlen))
  else none

/-- The Forecaster facade: hyperparameters, the fixed batch size 64, the
Net configuration and the current learned state. -/
structure Forecaster where
  encode_len : ℕ
  decode_len : ℕ
  feat_dim : ℕ
  activation : String
  batch_size : ℕ
  net : Net
  state : NetState

/-- Forecaster.__init__: records the hyperparameters, sets batch_size 64
and builds the Net (which resolves the activation and may raise). The
initial random weights are passed explicitly as init_state. -/
noncomputable def Forecaster.init (encode_len decode_len feat_dim : ℕ)
    (activation : String) (init_state : NetState) : Except Err Forecaster :=
  (Net.init feat_dim encode_len decode_len activation).map fun n =>
    ⟨encode_len, decode_len, feat_dim, activation, 64, n, init_state⟩

/-- Forecaster._get_X_and_y: validates the feature dimension, then in
train mode requires T = encode_len + decode_len exactly and splits into
history data[:, :encode_len, :] and target data[:, encode_len:, 0]; in
inference mode requires T >= encode_len and keeps data[:, -encode_len:, :]
with no target. -/
def Forecaster.get_X_and_y (m : Forecaster) (data : Arr3) (is_train : Bool) :
    Except Err (Arr3 × Option Arr2) :=
  if data.D ≠ m.feat_dim then
    .error (.shapeMismatch .featDim m.feat_dim data.D)
  else
    match is_train with
    | true =>
      if data.T ≠ m.encode_len + m.decode_len then
        .error (.shapeMismatch .seqLen (m.encode_len + m.decode_len) data.T)
      else
        .ok (⟨data.N, min m.encode_len data.T, data.D,
              fun i t d => data.entry i t d⟩,
             some ⟨data.N, data.T - m.encode_len,
              fun i t => data.entry i (m.encode_len + t) 0⟩)
    | false =>
      if data.T < m.encode_len then
        .error (.insufficientHistory m.encode_len data.T)
      else
        .ok (⟨data.N, pyNegSliceLen m.encode_len data.T, data.D,
              fun i t d =>
                data.entry i (data.T - pyNegSliceLen m.encode_len data.T + t) d⟩,
             none)

/-- Forecaster.predict: extract the history window in inference mode,
iterate it in fixed consecutive batches of batch_size (DataLoader with
shuffle=False), run the net on each batch, keep preds[:, -decode_len:],
concatenate the per-batch outputs along axis 0 and add a trailing axis.
An empty batch list makes np.concatenate raise (emptyConcat); the torch
shape checks of the first batch forward are raised before that point is
reached only when at least one batch exists. -/
noncomputable def Forecaster.predict (m : Forecaster) (data : Arr3) :
    Except Err Arr3 :=
  match m.get_X_and_y data false with
  | .error e => .error e
  | .ok p =>
    let X := p.1
    let bs := m.batch_size
    let nb := (X.N + bs - 1) / bs
    if nb = 0 then .error .emptyConcat
    else
      match m.net.forwardCheck X.T X.D with
      | some e => .error e
      | none =>
        let outs : List (ℕ → ℕ → ℝ) :=
          (List.range nb).map fun b r j =>
            m.net.forwardInst m.state X.T
              (fun t d => X.entry (bs * b + r) t d)
              (m.net.decode_len
                - pyNegSliceLen m.net.decode_len m.net.decode_len + j)
        .ok ⟨X.N, m.net.decode_len, 1,
             fun i j _ => (outs.getD (i / bs) (fun _ _ => 0)) (i % bs) j⟩

/-- torch.nn.MSELoss with mean reduction on two R-by-C batches. -/
noncomputable def MSELoss (R C : ℕ) (a b : ℕ → ℕ → ℝ) : ℝ :=
  (∑ r ∈ Finset.range R, ∑ c ∈ Finset.range C, (a r c - b r c) ^ 2)
    / ((R : ℝ) * (C : ℝ))

/-- get_loss: iterate (X, y) in consecutive batches of size bs, run the
net on each batch, sum the per-batch MSELoss values and divide by the
number of batches. Zero batches makes the final division raise
ZeroDivisionError; the torch shape checks of a batch forward are raised
inside the loop. -/
noncomputable def get_loss (net : Net) (st : NetState) (X : Arr3) (y : Arr2)
    (bs : ℕ) : Except Err ℝ :=
  let nb := (X.N + bs - 1) / bs
  if nb = 0 then .error .zeroDivision
  else
    match net.forwardCheck X.T X.D with
    | some e => .error e
    | none =>
      .ok ((∑ b ∈ Finset.range nb,
        MSELoss (min bs (X.N - bs * b)) net.decode_len
          (fun r c => y.entry (bs * b + r) c)
          (fun r c => net.forwardInst st X.T
            (fun t d => X.entry (bs * b + r) t d) c)) / (nb : ℝ))

/-- Forecaster.evaluate: window the test data in train mode and return
get_loss over batches of the hardcoded size 32. -/
noncomputable def Forecaster.evaluate (m : Forecaster) (test_data : Arr3) :
    Except Err ℝ :=
  match m.get_X_and_y test_data true with
  | .error e => .error e
  | .ok (X, some y) => get_loss m.net m.state X y 32
  | .ok (_, none) => .error .typeError

/-- The model_params dictionary written by Forecaster.save. -/
structure SavedParams where
  encode_len : ℕ
  decode_len : ℕ
  feat_dim : ℕ
  activation : String

/-- The two artifacts written by Forecaster.save: the hyperparameter
record and the network state dict. -/
structure SavedModel where
  params : SavedParams
  wts : NetState

/-- Forecaster.save: dump the four hyperparameters and the state dict. -/
def Forecaster.save (m : Forecaster) : SavedModel :=
  ⟨⟨m.encode_len, m.decode_len, m.feat_dim, m.activation⟩, m.state⟩

/-- Forecaster.load: reconstruct a fresh Forecaster from the saved
hyperparameters (with fresh random weights, passed explicitly) and then
overwrite its state with the saved state dict. -/
noncomputable def Forecaster.load (a : SavedModel) (fresh : NetState) :
    Except Err Forecaster :=
  (Forecaster.init a.params.encode_len a.params.decode_len a.params.feat_dim
      a.params.activation fresh).map
    fun c => { c with state := a.wts }

/-- Python int() applied to a real: truncation toward zero. -/
noncomputable def pyInt (x : ℝ) : ℤ :=
  if 0 ≤ x then ⌊x⌋ else ⌈x⌉

/-- get_patience_factor: 30 below 100 training instances, otherwise
int(37 - math.log(N, 1.5)). -/
noncomputable def get_patience_factor (N : ℕ) : ℤ :=
  if N < 100 then 30 else pyInt (37 - Real.log N / Real.log 1.5)

/-- The patience formula exactly as the spec words it: floor instead of
Python int truncation for N at least 100. Stated for comparison with
get_patience_factor. -/
noncomputable def claimed_patience (N : ℕ) : ℤ :=
  if N < 100 then 30 else ⌊(37 : ℝ) - Real.log N / Real.log 1.5⌋

/-- Outcome of Forecaster._run_training: normal completion of max_epochs,
an early-stopping return at a given epoch, or the UnboundLocalError hit
when trigger_times is incremented before ever being assigned. Each
outcome that returns carries the recorded (epoch, loss) history. -/
inductive TrainResult
  | finished (losses : List (ℕ × ℝ))
  | earlyStopped (epoch : ℕ) (losses : List (ℕ × ℝ))
  | crashed (epoch : ℕ)

/-- The epoch loop of Forecaster._run_training, abstracted over the
end-of-epoch loss signal lossOf (the validation loss, or the last
training-batch loss when no validation set is given). State: remaining
epochs (fuel), current epoch index, best_loss, trigger_times (none while
still unassigned), and the recorded losses. min_epochs is the hardcoded
floor 10. -/
noncomputable def run_trainingAux (lossOf : ℕ → ℝ) (patience : ℤ)
    (use_early_stopping : Bool) :
    ℕ → ℕ → ℝ → Option ℕ → List (ℕ × ℝ) → TrainResult
  | 0, _, _, _, acc => .finished acc
  | fuel + 1, e, best, trig, acc =>
    let current := lossOf e
    match use_early_stopping with
    | true =>
      if current < best then
        run_trainingAux lossOf patience true fuel (e + 1) current (some 0)
          (acc ++ [(e, current)])
      else
        match trig with
        | none => .crashed e
        | some t =>
          if patience ≤ (t : ℤ) + 1 ∧ 10 ≤ e then
            .earlyStopped e (acc ++ [(e, current)])
          else
            run_trainingAux lossOf patience true fuel (e + 1) best
              (some (t + 1)) (acc ++ [(e, current)])
    | false =>
      run_trainingAux lossOf patience false fuel (e + 1) best trig
        (acc ++ [(e, current)])

/-- Forecaster._run_training: best_loss starts at the finite constant 1e7
and trigger_times starts unassigned. -/
noncomputable def run_training (lossOf : ℕ → ℝ) (max_epochs : ℕ)
    (patience : ℤ) (use_early_stopping : Bool) : TrainResult :=
  run_trainingAux lossOf patience use_early_stopping max_epochs 0
    (10 ^ 7) none []

/-- The best loss seen strictly before epoch e (1e7 before any epoch). -/
noncomputable def bestAt (lossOf : ℕ → ℝ) : ℕ → ℝ
  | 0 => 10 ^ 7
  | e + 1 => min (bestAt lossOf e) (lossOf e)

/-- The stagnation counter value entering epoch e along a run in which it
is assigned: reset to 0 by an improving epoch, incremented otherwise. -/
noncomputable def ctrAt (lossOf : ℕ → ℝ) : ℕ → ℕ
  | 0 => 0
  | e + 1 => if lossOf e < bestAt lossOf e then 0 else ctrAt lossOf e + 1

/-- The early-stopping guard at epoch e: the epoch does not improve on the
best loss seen, the incremented stagnation counter has reached patience,
and the epoch index has reached the minimum-epoch floor 10. -/
def stopCond (lossOf : ℕ → ℝ) (patience : ℤ) (e : ℕ) : Prop :=
  ¬ lossOf e < bestAt lossOf e ∧ patience ≤ (ctrAt lossOf e : ℤ) + 1 ∧ 10 ≤ e

/-- The quantity the spec calls the scalar MSE over all windowed test
pairs: the mean squared difference between the network output on each
history window and the true future window, across all N instances at
once. Stated from the spec wording, for comparison with
Forecaster.evaluate. -/
noncomputable def spec_overall_mse (m : Forecaster) (test : Arr3) : ℝ :=
  (∑ i ∈ Finset.range test.N, ∑ j ∈ Finset.range m.decode_len,
    (m.net.forwardInst m.state m.encode_len (fun t d => test.entry i t d) j
      - test.entry i (m.encode_len + j) 0) ^ 2)
    / ((test.N : ℝ) * (m.decode_len : ℝ))

/-- A concrete forecaster: encode_len 1, decode_len 1, feat_dim 1,
activation none, zero weights. This is the record Forecaster.init
produces for those arguments. -/
def m11 : Forecaster :=
  ⟨1, 1, 1, "none", 64, ⟨1, 1, 1, fun x => x⟩, zeroState⟩

/-- A concrete forecaster with encode_len 0 and decode_len 0
(construction performs no validation on them). -/
def m00 : Forecaster :=
  ⟨0, 0, 1, "none", 64, ⟨1, 0, 0, fun x => x⟩, zeroState⟩

/-- A concrete all-zero (1, 2, 1) array. -/
def d12 : Arr3 := ⟨1, 2, 1, fun _ _ _ => 0⟩

/-- A concrete all-zero (1, 1, 1) array. -/
def d111 : Arr3 := ⟨1, 1, 1, fun _ _ _ => 0⟩

/-- Inverting a successful Forecaster.init: the activation string
resolved, and the model is the literal record with batch size 64, the Net
built from the hyperparameters, and the given initial state. -/
lemma init_ok_elim {e d f : ℕ} {s : String} {st : NetState} {m : Forecaster}
    (h : Forecaster.init e d f s st = .ok m) :
    ∃ g, get_activation s = .ok g
      ∧ m = ⟨e, d, f, s, 64, ⟨f, e, d, g⟩, st⟩ := by
  unfold Forecaster.init Net.init at h
  cases hg : get_activation s with
  | error err => rw [hg] at h; simp [Except.map] at h
  | ok g =>
    rw [hg] at h
    simp only [Except.map, Except.ok.injEq] at h
    exact ⟨g, rfl, h.symm⟩

/-- Claim C1: in train mode, extraction on an (N, T, D) array succeeds
exactly when T = encode_len + decode_len (given D = feat_dim), returning
history data[:, 0:encode_len, :] of shape (N, encode_len, D) and target
data[:, encode_len:, 0] of shape (N, decode_len); a wrong T fails with
ShapeMismatch reporting required vs actual length, a wrong D fails with
ShapeMismatch reporting expected vs actual feature count. -/
theorem get_X_and_y_train_spec (m : Forecaster) (data : Arr3) :
    (data.D ≠ m.feat_dim →
      m.get_X_and_y data true
        = .error (.shapeMismatch .featDim m.feat_dim data.D)) ∧
    (data.D = m.feat_dim →
      (data.T = m.encode_len + m.decode_len →
        ∃ X y, m.get_X_and_y data true = .ok (X, some y) ∧
          X.N = data.N ∧ X.T = m.encode_len ∧ X.D = data.D ∧
          (∀ i t d, X.entry i t d = data.entry i t d) ∧
          y.N = data.N ∧ y.T = m.decode_len ∧
          (∀ i t, y.entry i t = data.entry i (m.encode_len + t) 0)) ∧
      (data.T ≠ m.encode_len + m.decode_len →
        m.get_X_and_y data true
          = .error (.shapeMismatch .seqLen
              (m.encode_len + m.decode_len) data.T))) := by
  refine ⟨fun hD => ?_, fun hD => ⟨fun hT => ?_, fun hT => ?_⟩⟩
  · simp [Forecaster.get_X_and_y, hD]
  · refine ⟨⟨data.N, min m.encode_len data.T, data.D,
        fun i t d => data.entry i t d⟩,
      ⟨data.N, data.T - m.encode_len,
        fun i t => data.entry i (m.encode_len + t) 0⟩,
      ?_, rfl, ?_, rfl, fun i t d => rfl, rfl, ?_, fun i t => rfl⟩
    · simp [Forecaster.get_X_and_y, hD, hT]
    · simp only [hT]
      exact min_eq_left (Nat.le_add_right _ _)
    · show data.T - m.encode_len = m.decode_len
      omega
  · simp [Forecaster.get_X_and_y, hD, hT]

/-- Witness for get_X_and_y_train_spec at the concrete model m11 and the
concrete (1, 2, 1) array. -/
theorem get_X_and_y_train_spec_witness :
    d12.D = m11.feat_dim ∧ d12.T = m11.encode_len + m11.decode_len ∧
    (∃ X y, m11.get_X_and_y d12 true = .ok (X, some y) ∧
      X.N = d12.N ∧ X.T = m11.encode_len ∧ X.D = d12.D ∧
      (∀ i t d, X.entry i t d = d12.entry i t d) ∧
      y.N = d12.N ∧ y.T = m11.decode_len ∧
      (∀ i t, y.entry i t = d12.entry i (m11.encode_len + t) 0)) :=
  ⟨rfl, rfl, ((get_X_and_y_train_spec m11 d12).2 rfl).1 rfl⟩

/-- Claim C2 counterexample: for a model with encode_len = 0, inference
extraction on a (1, 1, 1) array succeeds and returns a history with 1
time step, not the most recent encode_len = 0 time steps: the Python
slice data[:, -0:, :] degenerates to the whole array. -/
theorem get_X_and_y_infer_encode_len_zero :
    Except.map (fun p => p.1.T)
        (m00.get_X_and_y d111 false) = .ok 1 ∧
    (1 : ℕ) ≠ m00.encode_len :=
  ⟨rfl, by decide⟩

/-- Claim C2 (amended): for a model with encode_len >= 1, inference-mode
extraction on an (N, T, D) array with D = feat_dim succeeds exactly when
T >= encode_len, returning the most recent encode_len time steps across
all features, data[:, -encode_len:, :], with no target; T < encode_len
fails with InsufficientHistory, wrong D with ShapeMismatch. -/
theorem get_X_and_y_infer_spec (m : Forecaster) (h1 : 1 ≤ m.encode_len)
    (data : Arr3) :
    (data.D ≠ m.feat_dim →
      m.get_X_and_y data false
        = .error (.shapeMismatch .featDim m.feat_dim data.D)) ∧
    (data.D = m.feat_dim →
      (m.encode_len ≤ data.T →
        ∃ X, m.get_X_and_y data false = .ok (X, none) ∧
          X.N = data.N ∧ X.T = m.encode_len ∧ X.D = data.D ∧
          ∀ i t d, X.entry i t d
            = data.entry i (data.T - m.encode_len + t) d) ∧
      (data.T < m.encode_len →
        m.get_X_and_y data false
          = .error (.insufficientHistory m.encode_len data.T))) := by
  refine ⟨fun hD => ?_, fun hD => ⟨fun hT => ?_, fun hT => ?_⟩⟩
  · simp [Forecaster.get_X_and_y, hD]
  · have hp : pyNegSliceLen m.encode_len data.T = m.encode_len := by
      unfold pyNegSliceLen
      rw [if_neg (by omega)]
      exact min_eq_left hT
    refine ⟨⟨data.N, pyNegSliceLen m.encode_len data.T, data.D,
        fun i t d =>
          data.entry i (data.T - pyNegSliceLen m.encode_len data.T + t) d⟩,
      ?_, rfl, hp, rfl, fun i t d => by rw [hp]⟩
    simp [Forecaster.get_X_and_y, hD, Nat.not_lt.2 hT]
  · simp [Forecaster.get_X_and_y, hD, hT]

/-- Witness for get_X_and_y_infer_spec at the concrete model m11 and the
concrete (1, 2, 1) array. -/
theorem get_X_and_y_infer_spec_witness :
    (1 : ℕ) ≤ m11.encode_len ∧ d12.D = m11.feat_dim ∧
    m11.encode_len ≤ d12.T ∧
    (∃ X, m11.get_X_and_y d12 false = .ok (X, none) ∧
      X.N = d12.N ∧ X.T = m11.encode_len ∧ X.D = d12.D ∧
      ∀ i t d, X.entry i t d
        = d12.entry i (d12.T - m11.encode_len + t) d) :=
  ⟨le_refl 1, rfl, by decide,
    ((get_X_and_y_infer_spec m11 (le_refl 1) d12).2 rfl).1 (by decide)⟩

/-- Claim C3 counterexample: constructing a model with decode_len = 3
greater than encode_len = 2 succeeds; no ShapeMismatch is raised at
instantiation time. -/
theorem init_no_decode_len_check :
    (Forecaster.init 2 3 1 "relu" zeroState).isOk = true ∧ (2 : ℕ) < 3 :=
  ⟨rfl, by decide⟩

/-- Claim C3 (amended): construction does not validate
decode_len <= encode_len; a model with decode_len > encode_len is built
successfully and the violation surfaces at forward time: predict on any
valid inference input fails with a ShapeMismatch on the fully-connected
input size, 25 * decode_len expected vs 25 * encode_len actual. -/
theorem decode_len_gt_encode_len_fails_at_predict
    (e d f : ℕ) (s : String) (st : NetState) (m : Forecaster)
    (hm : Forecaster.init e d f s st = .ok m)
    (h1 : 1 ≤ e) (hlt : e < d) (data : Arr3)
    (hD : data.D = f) (hT : e ≤ data.T) (hN : 1 ≤ data.N) :
    m.predict data = .error (.shapeMismatch .fcIn (25 * d) (25 * e)) := by
  obtain ⟨g, hg, rfl⟩ := init_ok_elim hm
  have hp : pyNegSliceLen e data.T = e := by
    unfold pyNegSliceLen
    rw [if_neg (by omega)]
    exact min_eq_left hT
  have hxy : Forecaster.get_X_and_y ⟨e, d, f, s, 64, ⟨f, e, d, g⟩, st⟩ data false
      = .ok (⟨data.N, pyNegSliceLen e data.T, data.D,
          fun i t dd =>
            data.entry i (data.T - pyNegSliceLen e data.T + t) dd⟩, none) := by
    simp [Forecaster.get_X_and_y, hD, Nat.not_lt.2 hT]
  have hfc : pyNegSliceLen d (pyNegSliceLen e data.T) = e := by
    rw [hp]
    unfold pyNegSliceLen
    rw [if_neg (by omega)]
    exact min_eq_right (by omega)
  have hchk : Net.forwardCheck ⟨f, e, d, g⟩ (pyNegSliceLen e data.T) data.D
      = some (.shapeMismatch .fcIn (25 * d) (25 * e)) := by
    unfold Net.forwardCheck
    rw [if_neg (by simp [hD])]
    rw [hfc]
    rw [if_pos (show 25 * e ≠ 25 * d by omega)]
  simp only [Forecaster.predict, hxy]
  rw [if_neg (show ¬ (data.N + 64 - 1) / 64 = 0 by omega)]
  rw [hchk]

/-- Witness for decode_len_gt_encode_len_fails_at_predict at a concrete
model with encode_len 1 and decode_len 2. -/
def m12 : Forecaster :=
  ⟨1, 2, 1, "none", 64, ⟨1, 1, 2, fun x => x⟩, zeroState⟩

theorem decode_len_gt_encode_len_fails_at_predict_witness :
    Forecaster.init 1 2 1 "none" zeroState = .ok m12 ∧ (1 : ℕ) < 2 ∧
    m12.predict d111 = .error (.shapeMismatch .fcIn (25 * 2) (25 * 1)) :=
  ⟨rfl, by decide,
    decode_len_gt_encode_len_fails_at_predict 1 2 1 "none" zeroState m12 rfl
      (le_refl 1) (by decide) d111 rfl (le_refl 1) (le_refl 1)⟩

/-- Claim C6: for any model obtained from construction (with any weight
state, in particular a fitted one), saving and loading yields a model
with identical encode_len, decode_len, feat_dim and activation whose
predict agrees with the original on every input. -/
theorem save_load_roundtrip (e d f : ℕ) (s : String) (st fresh : NetState)
    (m : Forecaster) (hm : Forecaster.init e d f s st = .ok m) :
    ∃ m2, Forecaster.load m.save fresh = .ok m2 ∧
      m2.encode_len = m.encode_len ∧ m2.decode_len = m.decode_len ∧
      m2.feat_dim = m.feat_dim ∧ m2.activation = m.activation ∧
      ∀ data, m2.predict data = m.predict data := by
  obtain ⟨g, hg, rfl⟩ := init_ok_elim hm
  refine ⟨_, ?_, rfl, rfl, rfl, rfl, fun data => rfl⟩
  simp [Forecaster.load, Forecaster.save, Forecaster.init, Net.init, hg,
    Except.map]

/-- Witness for save_load_roundtrip at the concrete model m11. -/
theorem save_load_roundtrip_witness :
    Forecaster.init 1 1 1 "none" zeroState = .ok m11 ∧
    ∃ m2, Forecaster.load m11.save zeroState = .ok m2 ∧
      m2.encode_len = m11.encode_len ∧ m2.decode_len = m11.decode_len ∧
      m2.feat_dim = m11.feat_dim ∧ m2.activation = m11.activation ∧
      ∀ data, m2.predict data = m11.predict data :=
  ⟨rfl, save_load_roundtrip 1 1 1 "none" zeroState zeroState m11 rfl⟩

/-- Claim C9: an activation string outside relu / tanh / none makes
construction fail with UnrecognizedActivation (the Except carries no
model, so no network tensors exist); the three recognized strings resolve
to the relu, tanh and identity callables respectively. -/
theorem activation_resolution_spec :
    (∀ s : String, s ≠ "relu" → s ≠ "tanh" → s ≠ "none" →
      get_activation s = .error (.unrecognizedActivation s) ∧
      ∀ e d f st, Forecaster.init e d f s st
        = .error (.unrecognizedActivation s)) ∧
    get_activation "relu" = .ok Frelu ∧
    get_activation "tanh" = .ok Real.tanh ∧
    get_activation "none" = .ok (fun x => x) := by
  refine ⟨fun s h1 h2 h3 => ⟨?_, fun e d f st => ?_⟩, rfl, rfl, rfl⟩
  · simp [get_activation, h1, h2, h3]
  · simp [Forecaster.init, Net.init, get_activation, h1, h2, h3, Except.map]

/-- Witness for activation_resolution_spec at the string sigmoid from the
spec scenario. -/
theorem activation_resolution_spec_witness :
    Forecaster.init 1 1 1 "sigmoid" zeroState
      = .error (.unrecognizedActivation "sigmoid") :=
  (activation_resolution_spec.1 "sigmoid" (by decide) (by decide)
    (by decide)).2 1 1 1 zeroState

/-- Claim C10: best_loss is initialized to the finite constant 1e7 and
trigger_times is assigned only by an improving epoch, so any run whose
first epoch loss is at least 1e7 increments trigger_times before it was
ever assigned and crashes with an uninitialized-variable error at epoch
0. -/
theorem trigger_times_uninitialized_crash (lossOf : ℕ → ℝ)
    (max_epochs : ℕ) (patience : ℤ) (h1 : 1 ≤ max_epochs)
    (h2 : (10 ^ 7 : ℝ) ≤ lossOf 0) :
    run_training lossOf max_epochs patience true = .crashed 0 := by
  obtain ⟨fuel, rfl⟩ : ∃ fuel, max_epochs = fuel + 1 :=
    ⟨max_epochs - 1, by omega⟩
  show run_trainingAux lossOf patience true (fuel + 1) 0 (10 ^ 7) none []
      = .crashed 0
  rw [run_trainingAux]
  simp [not_lt.2 h2]

/-- Witness for trigger_times_uninitialized_crash with a constant loss
signal equal to 1e7. -/
theorem trigger_times_uninitialized_crash_witness :
    (1 : ℕ) ≤ 1 ∧ (10 ^ 7 : ℝ) ≤ (fun _ : ℕ => (10 ^ 7 : ℝ)) 0 ∧
    run_training (fun _ => (10 ^ 7 : ℝ)) 1 0 true = .crashed 0 :=
  ⟨le_refl 1, le_refl _,
    trigger_times_uninitialized_crash _ 1 0 (le_refl 1) (le_refl _)⟩

/-- One unfolding step of the epoch loop with early stopping on. -/
lemma runAux_step (lossOf : ℕ → ℝ) (patience : ℤ) (fuel e : ℕ) (best : ℝ)
    (trig : Option ℕ) (acc : List (ℕ × ℝ)) :
    run_trainingAux lossOf patience true (fuel + 1) e best trig acc
      = if lossOf e < best then
          run_trainingAux lossOf patience true fuel (e + 1) (lossOf e) (some 0)
            (acc ++ [(e, lossOf e)])
        else
          match trig with
          | none => .crashed e
          | some t =>
            if patience ≤ (t : ℤ) + 1 ∧ 10 ≤ e then
              .earlyStopped e (acc ++ [(e, lossOf e)])
            else
              run_trainingAux lossOf patience true fuel (e + 1) best
                (some (t + 1)) (acc ++ [(e, lossOf e)]) := rfl

/-- Invariant of the epoch loop from any epoch e whose entering state
agrees with the declarative best-loss and counter trajectories: the loop
early-stops at epoch j at least e if and only if j is the first epoch at
least e whose early-stopping guard holds (within the remaining fuel). -/
lemma runAux_characterize (lossOf : ℕ → ℝ) (patience : ℤ) :
    ∀ fuel e acc,
      (∀ j l, run_trainingAux lossOf patience true fuel e (bestAt lossOf e)
          (some (ctrAt lossOf e)) acc = .earlyStopped j l →
        e ≤ j ∧ j < e + fuel ∧ stopCond lossOf patience j ∧
          ∀ k, e ≤ k → k < j → ¬ stopCond lossOf patience k) ∧
      (∀ j, e ≤ j → j < e + fuel → stopCond lossOf patience j →
        (∀ k, e ≤ k → k < j → ¬ stopCond lossOf patience k) →
        ∃ l, run_trainingAux lossOf patience true fuel e (bestAt lossOf e)
          (some (ctrAt lossOf e)) acc = .earlyStopped j l) := by
  intro fuel
  induction fuel with
  | zero =>
    intro e acc
    constructor
    · intro j l h
      exact absurd h (by rw [show run_trainingAux lossOf patience true 0 e
        (bestAt lossOf e) (some (ctrAt lossOf e)) acc
          = .finished acc from rfl]; simp)
    · intro j hej hjlt
      omega
  | succ fuel ih =>
    intro e acc
    by_cases himp : lossOf e < bestAt lossOf e
    · have hb : bestAt lossOf (e + 1) = lossOf e := by
        rw [bestAt]
        exact min_eq_right himp.le
      have hc : ctrAt lossOf (e + 1) = 0 := by
        rw [ctrAt, if_pos himp]
      have hstope : ¬ stopCond lossOf patience e := fun hs => hs.1 himp
      have ihspec := ih (e + 1) (acc ++ [(e, lossOf e)])
      rw [hb, hc] at ihspec
      constructor
      · intro j l h
        rw [runAux_step, if_pos himp] at h
        obtain ⟨h1, h2, h3, h4⟩ := ihspec.1 j l h
        refine ⟨by omega, by omega, h3, fun k hk1 hk2 => ?_⟩
        rcases Nat.eq_or_lt_of_le hk1 with rfl | hk1
        · exact hstope
        · exact h4 k hk1 hk2
      · intro j hej hjlt hstopj hmin
        have hje : e + 1 ≤ j := by
          rcases Nat.eq_or_lt_of_le hej with rfl | h
          · exact absurd hstopj hstope
          · omega
        obtain ⟨l, hl⟩ := ihspec.2 j hje
          (by omega) hstopj (fun k hk1 hk2 => hmin k (by omega) hk2)
        refine ⟨l, ?_⟩
        rw [runAux_step, if_pos himp]
        exact hl
    · have hb : bestAt lossOf (e + 1) = bestAt lossOf e := by
        rw [bestAt]
        exact min_eq_left (not_lt.1 himp)
      have hc : ctrAt lossOf (e + 1) = ctrAt lossOf e + 1 := by
        rw [ctrAt, if_neg himp]
      by_cases hguard : patience ≤ (ctrAt lossOf e : ℤ) + 1 ∧ 10 ≤ e
      · have hstope : stopCond lossOf patience e := ⟨himp, hguard.1, hguard.2⟩
        constructor
        · intro j l h
          rw [runAux_step, if_neg himp] at h
          simp only [if_pos hguard, TrainResult.earlyStopped.injEq] at h
          obtain ⟨rfl, rfl⟩ := h
          exact ⟨le_refl e, by omega, hstope, fun k hk1 hk2 => by omega⟩
        · intro j hej hjlt hstopj hmin
          rcases Nat.eq_or_lt_of_le hej with rfl | hej
          · refine ⟨acc ++ [(e, lossOf e)], ?_⟩
            rw [runAux_step, if_neg himp]
            simp only [if_pos hguard]
          · exact absurd hstope (hmin e (le_refl e) hej)
      · have hstope : ¬ stopCond lossOf patience e := fun hs =>
          hguard ⟨hs.2.1, hs.2.2⟩
        have ihspec := ih (e + 1) (acc ++ [(e, lossOf e)])
        rw [hb, hc] at ihspec
        constructor
        · intro j l h
          rw [runAux_step, if_neg himp] at h
          simp only [if_neg hguard] at h
          obtain ⟨h1, h2, h3, h4⟩ := ihspec.1 j l h
          refine ⟨by omega, by omega, h3, fun k hk1 hk2 => ?_⟩
          rcases Nat.eq_or_lt_of_le hk1 with rfl | hk1
          · exact hstope
          · exact h4 k hk1 hk2
        · intro j hej hjlt hstopj hmin
          have hje : e + 1 ≤ j := by
            rcases Nat.eq_or_lt_of_le hej with rfl | h
            · exact absurd hstopj hstope
            · omega
          obtain ⟨l, hl⟩ := ihspec.2 j hje
            (by omega) hstopj (fun k hk1 hk2 => hmin k (by omega) hk2)
          refine ⟨l, ?_⟩
          rw [runAux_step, if_neg himp]
          simp only [if_neg hguard]
          exact hl

/-- Reading position q of a mapped range list with a default. -/
lemma list_range_map_getD {α : Type} (nb q : ℕ) (f : ℕ → α) (dflt : α)
    (h : q < nb) : ((List.range nb).map f).getD q dflt = f q := by
  rw [List.getD_eq_getElem?_getD, List.getElem?_map, List.getElem?_range h]
  rfl

/-- A concrete all-zero (0, 1, 1) array: zero instances. -/
def d011 : Arr3 := ⟨0, 1, 1, fun _ _ _ => 0⟩

/-- Claim C7 counterexample: on a valid inference input with zero
instances (shape (0, 1, 1), time length equal to encode_len, feature
count equal to feat_dim) predict does not return an array of shape
(0, decode_len, 1): the DataLoader yields no batches and
np.concatenate of the empty batch list raises. -/
theorem predict_empty_input_error :
    m11.predict d011 = .error .emptyConcat ∧ d011.D = m11.feat_dim ∧
    m11.encode_len ≤ d011.T :=
  ⟨rfl, rfl, by decide⟩

/-- Claim C7 (amended): for a model with 1 <= decode_len <= encode_len
and a valid inference input with at least one instance, predict succeeds
and returns an array of shape (N, decode_len, 1) whose row i is the
network output on input row i (batching into fixed size-64 chunks and
concatenating preserves input row order). -/
theorem predict_shape_and_order (e d f : ℕ) (s : String) (st : NetState)
    (m : Forecaster) (hm : Forecaster.init e d f s st = .ok m)
    (data : Arr3) (hD : data.D = f) (hT : e ≤ data.T) (hd : 1 ≤ d)
    (hde : d ≤ e) (hN : 1 ≤ data.N) :
    (∃ out, m.predict data = .ok out) ∧
    ∀ out, m.predict data = .ok out →
      out.N = data.N ∧ out.T = d ∧ out.D = 1 ∧
      ∀ i j, i < data.N →
        out.entry i j 0 = m.net.forwardInst m.state e
          (fun t dd => data.entry i (data.T - e + t) dd) j := by
  obtain ⟨g, hg, rfl⟩ := init_ok_elim hm
  have h1e : 1 ≤ e := le_trans hd hde
  have hpe : pyNegSliceLen e data.T = e := by
    unfold pyNegSliceLen
    rw [if_neg (by omega)]
    exact min_eq_left hT
  have hpdd : pyNegSliceLen d d = d := by
    unfold pyNegSliceLen
    rw [if_neg (by omega)]
    exact min_self d
  have hxy : Forecaster.get_X_and_y ⟨e, d, f, s, 64, ⟨f, e, d, g⟩, st⟩ data false
      = .ok (⟨data.N, e, data.D,
          fun i t dd => data.entry i (data.T - e + t) dd⟩, none) := by
    have hxy0 : Forecaster.get_X_and_y ⟨e, d, f, s, 64, ⟨f, e, d, g⟩, st⟩
        data false
        = .ok (⟨data.N, pyNegSliceLen e data.T, data.D,
            fun i t dd =>
              data.entry i (data.T - pyNegSliceLen e data.T + t) dd⟩,
           none) := by
      simp [Forecaster.get_X_and_y, hD, Nat.not_lt.2 hT]
    rw [hpe] at hxy0
    exact hxy0
  have hchk : Net.forwardCheck ⟨f, e, d, g⟩ e data.D = none := by
    unfold Net.forwardCheck
    rw [if_neg (by simp [hD])]
    have hpde : pyNegSliceLen d e = d := by
      unfold pyNegSliceLen
      rw [if_neg (by omega)]
      exact min_eq_left hde
    rw [hpde]
    simp
  have h64 : ¬ ((data.N + 64 - 1) / 64 = 0) := by omega
  have h64b : ¬ ((data.N + 63) / 64 = 0) := by omega
  constructor
  · simp only [Forecaster.predict, hxy]
    rw [if_neg h64, hchk]
    exact ⟨_, rfl⟩
  · intro out hok
    simp only [Forecaster.predict, hxy, hchk, if_neg h64, if_neg h64b,
      Except.ok.injEq] at hok
    rw [← hok]
    refine ⟨rfl, rfl, rfl, fun i j hi => ?_⟩
    have hdiv : i / 64 < (data.N + 64 - 1) / 64 := by omega
    show ((List.range ((data.N + 64 - 1) / 64)).map fun b r jj =>
        Net.forwardInst ⟨f, e, d, g⟩ st e
          (fun t dd => data.entry (64 * b + r) (data.T - e + t) dd)
          (d - pyNegSliceLen d d + jj)).getD (i / 64) (fun _ _ => 0)
        (i % 64) j
      = Net.forwardInst ⟨f, e, d, g⟩ st e
          (fun t dd => data.entry i (data.T - e + t) dd) j
    rw [list_range_map_getD _ _ _ _ hdiv]
    show Net.forwardInst ⟨f, e, d, g⟩ st e
        (fun t dd => data.entry (64 * (i / 64) + i % 64) (data.T - e + t) dd)
        (d - pyNegSliceLen d d + j)
      = Net.forwardInst ⟨f, e, d, g⟩ st e
          (fun t dd => data.entry i (data.T - e + t) dd) j
    rw [hpdd, Nat.div_add_mod, Nat.sub_self, Nat.zero_add]

/-- Witness for predict_shape_and_order at the concrete model m11 and the
all-zero (1, 1, 1) inference array. -/
theorem predict_shape_and_order_witness :
    (∃ out, m11.predict d111 = .ok out) ∧
    ∀ out, m11.predict d111 = .ok out →
      out.N = d111.N ∧ out.T = 1 ∧ out.D = 1 ∧
      ∀ i j, i < d111.N →
        out.entry i j 0 = m11.net.forwardInst m11.state 1
          (fun t dd => d111.entry i (d111.T - 1 + t) dd) j :=
  predict_shape_and_order 1 1 1 "none" zeroState m11 rfl d111 rfl
    (le_refl 1) (le_refl 1) (le_refl 1) (le_refl 1)

/-- The network output is identically zero under all-zero weights: the
head bias is 0 and every head weight is 0. -/
lemma forwardInst_zeroState (net : Net) (T : ℕ) (x : ℕ → ℕ → ℝ) (j : ℕ) :
    net.forwardInst zeroState T x j = 0 := by
  unfold Net.forwardInst zeroState
  simp

/-- Splitting a sum over range (c * q) into q consecutive chunks of c. -/
lemma sum_range_mul_split (q c : ℕ) (f : ℕ → ℝ) :
    ∑ i ∈ Finset.range (c * q), f i
      = ∑ b ∈ Finset.range q, ∑ r ∈ Finset.range c, f (c * b + r) := by
  induction q with
  | zero => simp
  | succ n ih =>
    rw [Nat.mul_succ, Finset.sum_range_add, ih, Finset.sum_range_succ]

/-- The mean over consecutive size-32 batches of per-batch means equals
the overall mean exactly when all batches have the same size: N a
multiple of 32, or a single batch (N at most 32). -/
lemma batch_mean_eq_overall (N d : ℕ) (hN : 1 ≤ N) (_hd : 1 ≤ d)
    (hbatch : 32 ∣ N ∨ N ≤ 32) (g : ℕ → ℕ → ℝ) :
    (∑ b ∈ Finset.range ((N + 32 - 1) / 32),
      (∑ r ∈ Finset.range (min 32 (N - 32 * b)), ∑ c ∈ Finset.range d,
        g (32 * b + r) c)
        / (((min 32 (N - 32 * b) : ℕ) : ℝ) * (d : ℝ)))
      / (((N + 32 - 1) / 32 : ℕ) : ℝ)
    = (∑ i ∈ Finset.range N, ∑ c ∈ Finset.range d, g i c)
        / ((N : ℝ) * (d : ℝ)) := by
  rcases hbatch with hdvd | hle
  · obtain ⟨q, rfl⟩ := hdvd
    have hq : 1 ≤ q := by omega
    rw [show (32 * q + 32 - 1) / 32 = q from by omega]
    rw [Finset.sum_congr rfl (fun b hb => by
      rw [show min 32 (32 * q - 32 * b) = 32 from
        min_eq_left (by rw [Finset.mem_range] at hb; omega)])]
    rw [← Finset.sum_div, ← sum_range_mul_split q 32
      (fun i => ∑ c ∈ Finset.range d, g i c), div_div]
    rw [show ((32 * q : ℕ) : ℝ) = 32 * (q : ℝ) by push_cast; ring]
    ring_nf
  · rw [show (N + 32 - 1) / 32 = 1 from by omega]
    rw [Finset.sum_range_one]
    simp only [Nat.mul_zero, Nat.sub_zero, Nat.zero_add]
    rw [min_eq_right hle, Nat.cast_one, div_one]

/-- Claim C8 (amended): for a model from construction with
1 <= decode_len <= encode_len and a test array of shape
(N, encode_len + decode_len, feat_dim) with N at least 1, evaluate
returns the mean over consecutive size-32 batches of the per-batch MSE;
when N is a multiple of 32 or N <= 32 (all batches equal), this equals
the overall MSE between predictions and true future windows across all N
instances. -/
theorem evaluate_mse_spec (e d f : ℕ) (s : String) (st : NetState)
    (m : Forecaster) (hm : Forecaster.init e d f s st = .ok m)
    (test : Arr3) (hD : test.D = f) (hT : test.T = e + d)
    (hd : 1 ≤ d) (hde : d ≤ e) (hN : 1 ≤ test.N)
    (hbatch : 32 ∣ test.N ∨ test.N ≤ 32) :
    m.evaluate test = .ok (spec_overall_mse m test) := by
  obtain ⟨g, hg, rfl⟩ := init_ok_elim hm
  have h1e : 1 ≤ e := le_trans hd hde
  have hxy : Forecaster.get_X_and_y ⟨e, d, f, s, 64, ⟨f, e, d, g⟩, st⟩ test true
      = .ok (⟨test.N, e, test.D, fun i t dd => test.entry i t dd⟩,
          some ⟨test.N, d, fun i t => test.entry i (e + t) 0⟩) := by
    simp [Forecaster.get_X_and_y, hD, hT, min_eq_left (Nat.le_add_right e d)]
  have hchk2 : Net.forwardCheck ⟨f, e, d, g⟩ e test.D = none := by
    unfold Net.forwardCheck
    rw [if_neg (by simp [hD])]
    have hpde : pyNegSliceLen d e = d := by
      unfold pyNegSliceLen
      rw [if_neg (by omega)]
      exact min_eq_left hde
    rw [hpde]
    simp
  have h32 : ¬ ((test.N + 32 - 1) / 32 = 0) := by omega
  have h32b : ¬ ((test.N + 31) / 32 = 0) := by omega
  have step1 : Forecaster.evaluate ⟨e, d, f, s, 64, ⟨f, e, d, g⟩, st⟩ test
      = get_loss ⟨f, e, d, g⟩ st
          ⟨test.N, e, test.D, fun i t dd => test.entry i t dd⟩
          ⟨test.N, d, fun i t => test.entry i (e + t) 0⟩ 32 := by
    simp only [Forecaster.evaluate, hxy]
  have step2 : get_loss ⟨f, e, d, g⟩ st
      ⟨test.N, e, test.D, fun i t dd => test.entry i t dd⟩
      ⟨test.N, d, fun i t => test.entry i (e + t) 0⟩ 32
      = .ok ((∑ b ∈ Finset.range ((test.N + 32 - 1) / 32),
          MSELoss (min 32 (test.N - 32 * b)) d
            (fun r c => test.entry (32 * b + r) (e + c) 0)
            (fun r c => Net.forwardInst ⟨f, e, d, g⟩ st e
              (fun t dd => test.entry (32 * b + r) t dd) c))
          / (((test.N + 32 - 1) / 32 : ℕ) : ℝ)) := by
    simp only [get_loss]
    rw [if_neg h32, hchk2]
  rw [step1, step2]
  refine congrArg Except.ok ?_
  have hspec : spec_overall_mse ⟨e, d, f, s, 64, ⟨f, e, d, g⟩, st⟩ test
      = (∑ i ∈ Finset.range test.N, ∑ c ∈ Finset.range d,
          (Net.forwardInst ⟨f, e, d, g⟩ st e
            (fun t dd => test.entry i t dd) c - test.entry i (e + c) 0) ^ 2)
        / ((test.N : ℝ) * (d : ℝ)) := rfl
  rw [hspec]
  have hflip : (∑ i ∈ Finset.range test.N, ∑ c ∈ Finset.range d,
      (Net.forwardInst ⟨f, e, d, g⟩ st e
        (fun t dd => test.entry i t dd) c - test.entry i (e + c) 0) ^ 2)
      = ∑ i ∈ Finset.range test.N, ∑ c ∈ Finset.range d,
          (test.entry i (e + c) 0 - Net.forwardInst ⟨f, e, d, g⟩ st e
            (fun t dd => test.entry i t dd) c) ^ 2 :=
    Finset.sum_congr rfl fun i _ => Finset.sum_congr rfl fun c _ => by ring
  rw [hflip]
  exact batch_mean_eq_overall test.N d hN hd hbatch
    (fun i c => (test.entry i (e + c) 0 - Net.forwardInst ⟨f, e, d, g⟩ st e
      (fun t dd => test.entry i t dd) c) ^ 2)

/-- Witness for evaluate_mse_spec at the concrete model m11 and the
all-zero (1, 2, 1) test array. -/
theorem evaluate_mse_spec_witness :
    Forecaster.init 1 1 1 "none" zeroState = .ok m11 ∧
    m11.evaluate d12 = .ok (spec_overall_mse m11 d12) :=
  ⟨rfl, evaluate_mse_spec 1 1 1 "none" zeroState m11 rfl d12 rfl rfl
    (le_refl 1) (le_refl 1) (le_refl 1) (Or.inr (by decide))⟩

/-- A (33, 2, 1) test array: zero everywhere except feature 0 of the last
time step of the last instance, which is 1. -/
noncomputable def d33 : Arr3 :=
  ⟨33, 2, 1, fun i t _ => if i = 32 ∧ t = 1 then 1 else 0⟩

/-- Claim C8 counterexample: at N = 33 instances (an uneven final batch
of 1 row), evaluate returns the mean of the two per-batch MSEs, 1/2,
while the overall MSE across all 33 windowed pairs is 1/33. -/
theorem evaluate_batch_mean_counterexample :
    Forecaster.init 1 1 1 "none" zeroState = .ok m11 ∧
    m11.evaluate d33 = .ok (1 / 2) ∧
    spec_overall_mse m11 d33 = 1 / 33 ∧
    (1 / 2 : ℝ) ≠ 1 / 33 := by
  refine ⟨rfl, ?_, ?_, by norm_num⟩
  · have hxy33 : m11.get_X_and_y d33 true
        = .ok (⟨33, 1, 1, fun i t dd => d33.entry i t dd⟩,
            some ⟨33, 1, fun i t => d33.entry i (1 + t) 0⟩) := rfl
    have step1 : m11.evaluate d33
        = get_loss m11.net m11.state
            ⟨33, 1, 1, fun i t dd => d33.entry i t dd⟩
            ⟨33, 1, fun i t => d33.entry i (1 + t) 0⟩ 32 := by
      simp only [Forecaster.evaluate, hxy33]
    have step2 : get_loss m11.net m11.state
        ⟨33, 1, 1, fun i t dd => d33.entry i t dd⟩
        ⟨33, 1, fun i t => d33.entry i (1 + t) 0⟩ 32
        = .ok ((∑ b ∈ Finset.range 2,
            MSELoss (min 32 (33 - 32 * b)) 1
              (fun r c => d33.entry (32 * b + r) (1 + c) 0)
              (fun r c => Net.forwardInst m11.net m11.state 1
                (fun t dd => d33.entry (32 * b + r) t dd) c))
            / ((2 : ℕ) : ℝ)) := by
      simp only [get_loss]
      rw [if_neg (by norm_num), show Net.forwardCheck m11.net 1 1 = none
        from rfl]
      rw [show ((33 : ℕ) + 32 - 1) / 32 = 2 from by norm_num]
      rfl
    rw [step1, step2]
    refine congrArg Except.ok ?_
    have hstate : m11.state = zeroState := rfl
    have t0 : MSELoss (min 32 (33 - 32 * 0)) 1
        (fun r c => d33.entry (32 * 0 + r) (1 + c) 0)
        (fun r c => Net.forwardInst m11.net m11.state 1
          (fun t dd => d33.entry (32 * 0 + r) t dd) c) = 0 := by
      unfold MSELoss
      rw [Finset.sum_eq_zero, zero_div]
      intro r hr
      have hr32 : r < 32 :=
        lt_of_lt_of_le (Finset.mem_range.1 hr) (min_le_left _ _)
      have hne : r ≠ 32 := by omega
      simp [hstate, forwardInst_zeroState, d33, hne]
    have t1 : MSELoss (min 32 (33 - 32 * 1)) 1
        (fun r c => d33.entry (32 * 1 + r) (1 + c) 0)
        (fun r c => Net.forwardInst m11.net m11.state 1
          (fun t dd => d33.entry (32 * 1 + r) t dd) c) = 1 := by
      have hv1 : d33.entry (32 * 1 + 0) (1 + 0) 0 = 1 := by
        show (if 32 * 1 + 0 = 32 ∧ 1 + 0 = 1 then (1 : ℝ) else 0) = 1
        rw [if_pos (by omega)]
      unfold MSELoss
      rw [show min 32 (33 - 32 * 1) = 1 from rfl, Finset.sum_range_one,
        Finset.sum_range_one]
      simp only [hstate, forwardInst_zeroState]
      rw [hv1]
      norm_num
    rw [show (2 : ℕ) = 1 + 1 from rfl, Finset.sum_range_succ,
      Finset.sum_range_one]
    show (MSELoss (min 32 (33 - 32 * 0)) 1
        (fun r c => d33.entry (32 * 0 + r) (1 + c) 0)
        (fun r c => Net.forwardInst m11.net m11.state 1
          (fun t dd => d33.entry (32 * 0 + r) t dd) c)
      + MSELoss (min 32 (33 - 32 * 1)) 1
        (fun r c => d33.entry (32 * 1 + r) (1 + c) 0)
        (fun r c => Net.forwardInst m11.net m11.state 1
          (fun t dd => d33.entry (32 * 1 + r) t dd) c))
        / (((1 + 1 : ℕ)) : ℝ) = 1 / 2
    rw [t0, t1]
    norm_num
  · have hspec : spec_overall_mse m11 d33
        = (∑ i ∈ Finset.range 33, ∑ j ∈ Finset.range 1,
            (Net.forwardInst m11.net m11.state 1
              (fun t dd => d33.entry i t dd) j - d33.entry i (1 + j) 0) ^ 2)
          / (((33 : ℕ) : ℝ) * ((1 : ℕ) : ℝ)) := rfl
    have hstate : m11.state = zeroState := rfl
    rw [hspec]
    rw [show (33 : ℕ) = 32 + 1 from rfl, Finset.sum_range_succ]
    rw [Finset.sum_eq_zero (fun i hi => by
      have hne : i ≠ 32 := by
        have := Finset.mem_range.1 hi
        omega
      simp [hstate, forwardInst_zeroState, d33, hne])]
    simp [hstate, forwardInst_zeroState, d33]

lemma log_base_pos : (0 : ℝ) < Real.log 1.5 :=
  Real.log_pos (by norm_num)

/-- A lower bound on the base-1.5 logarithm from a power comparison. -/
lemma cast_lt_logdiv {k n : ℕ} (h : (1.5 : ℝ) ^ k < n) :
    (k : ℝ) < Real.log n / Real.log 1.5 := by
  have h1 : Real.log ((1.5 : ℝ) ^ k) < Real.log n :=
    Real.log_lt_log (pow_pos (by norm_num) k) h
  rw [Real.log_pow] at h1
  exact (lt_div_iff₀ log_base_pos).2 h1

/-- An upper bound on the base-1.5 logarithm from a power comparison. -/
lemma logdiv_lt_cast {k n : ℕ} (hn : 0 < n) (h : (n : ℝ) < (1.5 : ℝ) ^ k) :
    Real.log n / Real.log 1.5 < k := by
  have h1 : Real.log n < Real.log ((1.5 : ℝ) ^ k) :=
    Real.log_lt_log (by exact_mod_cast hn) h
  rw [Real.log_pow] at h1
  exact (div_lt_iff₀ log_base_pos).2 h1

/-- Python int truncation is monotone. -/
lemma pyInt_mono {x y : ℝ} (h : x ≤ y) : pyInt x ≤ pyInt y := by
  unfold pyInt
  by_cases hx : 0 ≤ x
  · rw [if_pos hx, if_pos (le_trans hx h)]
    exact Int.floor_le_floor h
  · rw [if_neg hx]
    by_cases hy : 0 ≤ y
    · rw [if_pos hy]
      calc ⌈x⌉ ≤ 0 := Int.ceil_le.2 (by exact_mod_cast le_of_lt (not_le.1 hx))
        _ ≤ ⌊y⌋ := Int.le_floor.2 (by exact_mod_cast hy)
    · rw [if_neg hy]
      exact Int.ceil_le_ceil h

/-- Evaluating the patience factor when the formula value is bracketed by
a nonnegative integer. -/
lemma gpf_eval_pos {N : ℕ} {z : ℤ} (hN : 100 ≤ N) (hz : 0 ≤ z)
    (hlo : (z : ℝ) ≤ 37 - Real.log N / Real.log 1.5)
    (hhi : 37 - Real.log N / Real.log 1.5 < z + 1) :
    get_patience_factor N = z := by
  unfold get_patience_factor pyInt
  rw [if_neg (by omega)]
  rw [if_pos (le_trans (by exact_mod_cast hz : (0 : ℝ) ≤ z) hlo)]
  exact Int.floor_eq_iff.2 ⟨hlo, hhi⟩

/-- Evaluating the patience factor when the formula value is bracketed by
a negative integer. -/
lemma gpf_eval_neg {N : ℕ} {z : ℤ} (hN : 100 ≤ N) (hz : z < 0)
    (hlo : (z : ℝ) - 1 < 37 - Real.log N / Real.log 1.5)
    (hhi : 37 - Real.log N / Real.log 1.5 ≤ z) :
    get_patience_factor N = z := by
  unfold get_patience_factor pyInt
  rw [if_neg (by omega)]
  rw [if_neg (by
    have hz2 : (z : ℝ) < 0 := by exact_mod_cast hz
    linarith)]
  exact Int.ceil_eq_iff.2 ⟨hlo, hhi⟩

/-- Claim C5 counterexample: at N = 5000000 the formula value
37 - log_1.5 N lies strictly between -2 and -1, so Python int()
truncation (toward zero) gives -1 while the floor the claim specifies
gives -2. -/
theorem patience_int_vs_floor :
    get_patience_factor 5000000 = -1 ∧ claimed_patience 5000000 = -2 ∧
    get_patience_factor 5000000 ≠ claimed_patience 5000000 := by
  have hlo : (38 : ℝ) < Real.log (5000000 : ℕ) / Real.log 1.5 := by
    have := cast_lt_logdiv (k := 38) (n := 5000000) (by push_cast; norm_num)
    push_cast at this ⊢
    linarith
  have hhi : Real.log (5000000 : ℕ) / Real.log 1.5 < 39 := by
    have := logdiv_lt_cast (k := 39) (n := 5000000) (by norm_num)
      (by push_cast; norm_num)
    push_cast at this ⊢
    linarith
  have h1 : get_patience_factor 5000000 = -1 := by
    apply gpf_eval_neg (by norm_num) (by norm_num)
    · push_cast
      linarith
    · push_cast
      linarith
  have h2 : claimed_patience 5000000 = -2 := by
    unfold claimed_patience
    rw [if_neg (by norm_num)]
    refine Int.floor_eq_iff.2 ⟨?_, ?_⟩
    · push_cast
      linarith
    · push_cast
      linarith
  exact ⟨h1, h2, by rw [h1, h2]; decide⟩

/-- Claim C5 (amended): the derived patience is 30 for N < 100 and
int(37 - log_1.5 N) (Python truncation toward zero) for N >= 100, which
agrees with the floor of the formula whenever the formula value is
nonnegative; patience(50) = 30; patience is non-increasing in N on
N >= 100; and patience(1000) < patience(100). -/
theorem patience_formula_spec :
    (∀ N : ℕ, N < 100 → get_patience_factor N = 30) ∧
    (∀ N : ℕ, 100 ≤ N → 0 ≤ (37 : ℝ) - Real.log N / Real.log 1.5 →
      get_patience_factor N = ⌊(37 : ℝ) - Real.log N / Real.log 1.5⌋) ∧
    get_patience_factor 50 = 30 ∧
    (∀ M N : ℕ, 100 ≤ M → M ≤ N →
      get_patience_factor N ≤ get_patience_factor M) ∧
    get_patience_factor 1000 < get_patience_factor 100 := by
  have e100 : get_patience_factor 100 = 25 := by
    have hlo : (11 : ℝ) < Real.log (100 : ℕ) / Real.log 1.5 := by
      have := cast_lt_logdiv (k := 11) (n := 100) (by push_cast; norm_num)
      push_cast at this ⊢
      linarith
    have hhi : Real.log (100 : ℕ) / Real.log 1.5 < 12 := by
      have := logdiv_lt_cast (k := 12) (n := 100) (by norm_num)
        (by push_cast; norm_num)
      push_cast at this ⊢
      linarith
    apply gpf_eval_pos (by norm_num) (by norm_num)
    · push_cast
      linarith
    · push_cast
      linarith
  have e1000 : get_patience_factor 1000 = 19 := by
    have hlo : (17 : ℝ) < Real.log (1000 : ℕ) / Real.log 1.5 := by
      have := cast_lt_logdiv (k := 17) (n := 1000) (by push_cast; norm_num)
      push_cast at this ⊢
      linarith
    have hhi : Real.log (1000 : ℕ) / Real.log 1.5 < 18 := by
      have := logdiv_lt_cast (k := 18) (n := 1000) (by norm_num)
        (by push_cast; norm_num)
      push_cast at this ⊢
      linarith
    apply gpf_eval_pos (by norm_num) (by norm_num)
    · push_cast
      linarith
    · push_cast
      linarith
  refine ⟨fun N hN => ?_, fun N hN h0 => ?_, ?_, fun M N hM hMN => ?_, ?_⟩
  · unfold get_patience_factor
    rw [if_pos hN]
  · unfold get_patience_factor pyInt
    rw [if_neg (by omega), if_pos h0]
  · unfold get_patience_factor
    rw [if_pos (by norm_num)]
  · unfold get_patience_factor
    rw [if_neg (by omega), if_neg (by omega)]
    apply pyInt_mono
    have hlog : Real.log M ≤ Real.log N :=
      Real.log_le_log (by exact_mod_cast (by omega : 0 < M))
        (by exact_mod_cast hMN)
    have hdiv : Real.log M / Real.log 1.5 ≤ Real.log N / Real.log 1.5 :=
      (div_le_div_iff_of_pos_right log_base_pos).2 hlog
    linarith
  · rw [e100, e1000]
    decide

/-- Witness for patience_formula_spec: the small-N branch at 50 and
monotonicity between 100 and 200. -/
theorem patience_formula_spec_witness :
    (50 : ℕ) < 100 ∧ get_patience_factor 50 = 30 ∧ (100 : ℕ) ≤ 100 ∧
    (100 : ℕ) ≤ 200 ∧ get_patience_factor 200 ≤ get_patience_factor 100 :=
  ⟨by norm_num, patience_formula_spec.1 50 (by norm_num), le_refl 100,
    by norm_num,
    patience_formula_spec.2.2.2.1 100 200 (le_refl 100) (by norm_num)⟩

/-- Claim C4: the training loop with early stopping never returns early
at an epoch index below the minimum-epoch floor 10, and (for runs whose
first epoch improves on the 1e7 initial best, i.e. runs that do not hit
the uninitialized-counter crash) it returns early exactly at the first
epoch whose stagnation counter, reset to 0 by each strictly-improving
epoch and incremented otherwise, has reached patience after increment
while the epoch index is at least 10. -/
theorem early_stopping_characterization (lossOf : ℕ → ℝ) (max_epochs : ℕ)
    (patience : ℤ) :
    (∀ j l, run_training lossOf max_epochs patience true = .earlyStopped j l →
      10 ≤ j ∧ stopCond lossOf patience j ∧
        ∀ k, k < j → ¬ stopCond lossOf patience k) ∧
    (lossOf 0 < 10 ^ 7 →
      ∀ j, j < max_epochs → stopCond lossOf patience j →
        (∀ k, k < j → ¬ stopCond lossOf patience k) →
        ∃ l, run_training lossOf max_epochs patience true
          = .earlyStopped j l) := by
  cases max_epochs with
  | zero =>
    constructor
    · intro j l h
      rw [run_training, run_trainingAux] at h
      exact absurd h (by simp)
    · intro _ j hj
      omega
  | succ fuel =>
    by_cases h0 : lossOf 0 < 10 ^ 7
    · have hb1 : bestAt lossOf 1 = lossOf 0 := by
        rw [bestAt]
        exact min_eq_right (le_of_lt (by simpa [bestAt] using h0))
      have hc1 : ctrAt lossOf 1 = 0 := by
        rw [ctrAt, if_pos (by simpa [bestAt] using h0)]
      have ihspec :=
        runAux_characterize lossOf patience fuel 1 ([] ++ [(0, lossOf 0)])
      rw [hb1, hc1] at ihspec
      constructor
      · intro j l h
        rw [run_training, runAux_step, if_pos h0] at h
        obtain ⟨h1, h2, h3, h4⟩ := ihspec.1 j l h
        refine ⟨h3.2.2, h3, fun k hk => ?_⟩
        rcases Nat.eq_zero_or_pos k with rfl | hk1
        · exact fun hs => by
            have := hs.2.2
            omega
        · exact h4 k hk1 hk
      · intro _ j hj hstopj hmin
        have hj1 : 1 ≤ j := by
          have := hstopj.2.2
          omega
        obtain ⟨l, hl⟩ := ihspec.2 j hj1 (by omega) hstopj
          (fun k hk1 hk2 => hmin k hk2)
        refine ⟨l, ?_⟩
        rw [run_training, runAux_step, if_pos h0]
        exact hl
    · constructor
      · intro j l h
        rw [run_training, runAux_step, if_neg h0] at h
        exact absurd h (by simp)
      · intro h0x
        exact absurd h0x h0

/-- Witness for early_stopping_characterization: with the constant-zero
loss signal, patience 1 and 20 epochs, the guard first holds at epoch 10
and the loop indeed early-stops there, not before. -/
theorem early_stopping_characterization_witness :
    (fun _ : ℕ => (0 : ℝ)) 0 < 10 ^ 7 ∧
    ∃ l, run_training (fun _ => (0 : ℝ)) 20 1 true = .earlyStopped 10 l := by
  have hbz : ∀ e : ℕ, 1 ≤ e → bestAt (fun _ => (0 : ℝ)) e = 0 := by
    intro e he
    induction e with
    | zero => omega
    | succ n ihn =>
      rcases Nat.eq_zero_or_pos n with rfl | hn
      · rw [bestAt]
        rw [bestAt]
        exact min_eq_right (by norm_num)
      · rw [bestAt, ihn hn]
        exact min_self 0
  refine ⟨by norm_num, ?_⟩
  refine (early_stopping_characterization (fun _ => (0 : ℝ)) 20 1).2
    (by norm_num) 10 (by norm_num) ⟨?_, ?_, le_refl 10⟩ ?_
  · rw [hbz 10 (by norm_num)]
    exact lt_irrefl 0
  · have : (0 : ℤ) ≤ (ctrAt (fun _ => (0 : ℝ)) 10 : ℤ) := Int.ofNat_nonneg _
    omega
  · intro k hk hs
    have := hs.2.2
    omega
